import Mathlib

/-!
Verification of the build pipeline of `scripts/build.py`, a static site
generator for daily stock-prediction pages.  Dates are modelled as proleptic
Gregorian ordinals (integers, day 1 = 0001-01-01, a Monday, matching Python's
`datetime.date.toordinal`), prices as rationals, the filesystem as explicit
path lists, and CSV data frames as association lists from column names to
column payloads.
-/

namespace SSG

/-! ### Date projector (`next_business_day`, build.py lines 30-36) -/

/-- Python's `date.weekday()`: Monday = 0 … Sunday = 6.  Ordinal day 1
(0001-01-01) is a Monday, so the weekday of ordinal `d` is `(d - 1) % 7`. -/
def weekday (d : ℤ) : ℤ := (d - 1) % 7

/-- `next_business_day` from build.py: Friday jumps 3 days, Saturday 2 days,
every other weekday 1 day. -/
def next_business_day (d : ℤ) : ℤ :=
  if weekday d = 4 then d + 3
  else if weekday d = 5 then d + 2
  else d + 1

/-! ### Slug generator (`slug`, build.py lines 58-61)

`slug` does `s.strip().lower()`, then `re.sub("[^a-z0-9]+", "-", s)`, then
`s.strip("-") or "stock"`.  Characters are handled through their code points
(ASCII fragment of Python's semantics). -/

/-- Characters the regex `[^a-z0-9]+` does NOT replace: ASCII lower-case
letters (97-122) and digits (48-57). -/
def keepChar (c : Char) : Bool :=
  decide ((97 ≤ c.toNat ∧ c.toNat ≤ 122) ∨ (48 ≤ c.toNat ∧ c.toNat ≤ 57))

/-- The hyphen test used by `s.strip("-")`. -/
def isDash (c : Char) : Bool := decide (c.toNat = 45)

/-- ASCII whitespace stripped by Python's `str.strip()`:
space, tab, newline, carriage return, vertical tab, form feed. -/
def pySpace (c : Char) : Bool :=
  decide (c.toNat = 32 ∨ c.toNat = 9 ∨ c.toNat = 10 ∨ c.toNat = 13 ∨
          c.toNat = 11 ∨ c.toNat = 12)

/-- ASCII fragment of Python's `str.lower()`: map A-Z (65-90) to a-z, leave
everything else unchanged. -/
def lowerChar (c : Char) : Char :=
  if 65 ≤ c.toNat ∧ c.toNat ≤ 90 then Char.ofNat (c.toNat + 32) else c

/-- `re.sub("[^a-z0-9]+", "-", ·)` in one structural pass.  The flag records
whether the scanner is inside a run of replaced characters whose single
hyphen has already been emitted. -/
def collapseAux : Bool → List Char → List Char
  | _, [] => []
  | inRun, c :: cs =>
    if keepChar c then c :: collapseAux false cs
    else if inRun then collapseAux true cs
    else '-' :: collapseAux true cs

/-- Replace every maximal run of non-`[a-z0-9]` characters by one hyphen. -/
def collapseRuns (l : List Char) : List Char := collapseAux false l

/-- Python's `str.strip(chars)`: drop matching characters from both ends. -/
def stripEnds (p : Char → Bool) (l : List Char) : List Char :=
  ((l.dropWhile p).reverse.dropWhile p).reverse

/-- `slug` from build.py, on character lists. -/
def slugList (l : List Char) : List Char :=
  let t := (stripEnds pySpace l).map lowerChar
  let u := stripEnds isDash (collapseRuns t)
  if u.isEmpty then "stock".data else u

/-- `slug` from build.py. -/
def slug (s : String) : String := ⟨slugList s.data⟩

/-- Modelled from the spec words of §4.5 (for the refinement part of the slug
claim): lower-case, collapse every run of non-alphanumeric characters to a
single hyphen, strip leading/trailing hyphens, return "stock" if empty.
Unlike `slug` it performs no whitespace pre-strip. -/
def slugSpecList (l : List Char) : List Char :=
  let u := stripEnds isDash (collapseRuns (l.map lowerChar))
  if u.isEmpty then "stock".data else u

/-- String-level version of `slugSpecList`. -/
def slug_spec (s : String) : String := ⟨slugSpecList s.data⟩

/-- Adjacent characters are not both hyphens (the shape of `collapseRuns`
output, used to characterise slugs). -/
def noDD (a b : Char) : Prop := ¬(isDash a = true ∧ isDash b = true)

/-! ### Signal classifier (`classify`, build.py lines 38-47) -/

/-- `classify` from build.py.  Prices are modelled as rationals.  Returns the
`(signal, confidence, reason)` triple. -/
def classify (o h l c : ℚ) : String × ℚ × String :=
  let rng := max h l - min h l
  let body := |c - o|
  if rng ≤ 0 then ("Sideways", 1/2, "No range")
  else
    let ratio := body / rng
    if ratio < 1/5 then ("Sideways", 1/2, "Small body vs range — indecision")
    else if c > o then ("Bullish", min (9/10) (3/5 + ratio/2), "Close above open")
    else if c < o then ("Bearish", min (9/10) (3/5 + ratio/2), "Close below open")
    else ("Sideways", 1/2, "Flat")

/-- Python `str.strip()` with no argument (ASCII fragment). -/
def pyStrip (s : String) : String := ⟨stripEnds pySpace s.data⟩

/-- Column-name normalisation `c.strip().lower()` from `read_csv_safe`. -/
def pyStripLower (s : String) : String := ⟨(stripEnds pySpace s.data).map lowerChar⟩

/-! ### Dataset locator (`find_latest_date_folder`, build.py lines 16-28) -/

/-- One entry of the data root directory: its name and whether it is a
directory. -/
structure Entry where
  name : String
  isDir : Bool
deriving DecidableEq

/-- ASCII digit test for the `\d` of the folder-name regex. -/
def isDigit (c : Char) : Bool := decide (48 ≤ c.toNat ∧ c.toNat ≤ 57)

/-- `re.match(r"^\d{2}\.\d{2}\.\d{4}$", name)`: exactly `DD.MM.YYYY`, or the
same followed by one final newline (Python's `$` also matches just before a
trailing newline). -/
def matchesDatePattern (s : String) : Bool :=
  match s.data with
  | [d1, d2, p1, m1, m2, p2, y1, y2, y3, y4] =>
    [d1, d2, m1, m2, y1, y2, y3, y4].all isDigit && p1 == '.' && p2 == '.'
  | [d1, d2, p1, m1, m2, p2, y1, y2, y3, y4, nl] =>
    [d1, d2, m1, m2, y1, y2, y3, y4].all isDigit && p1 == '.' && p2 == '.' && nl == '\n'
  | _ => false

/-- A calendar date. -/
structure Date where
  year : ℕ
  month : ℕ
  day : ℕ
deriving DecidableEq

/-- Gregorian leap-year rule, as `datetime` applies it. -/
def isLeapYear (y : ℕ) : Bool := (y % 4 == 0 && y % 100 != 0) || y % 400 == 0

/-- Length of month `m` in year `y`. -/
def daysInMonth (y m : ℕ) : ℕ :=
  if m = 2 then (if isLeapYear y then 29 else 28)
  else if m = 4 ∨ m = 6 ∨ m = 9 ∨ m = 11 then 30
  else 31

/-- `datetime` accepts exactly years 1-9999, months 1-12 and days fitting the
month. -/
def validDMY (d m y : ℕ) : Bool :=
  decide (1 ≤ y ∧ y ≤ 9999 ∧ 1 ≤ m ∧ m ≤ 12 ∧ 1 ≤ d ∧ d ≤ daysInMonth y m)

/-- Numeric value of an ASCII digit. -/
def digitVal (c : Char) : ℕ := c.toNat - 48

/-- `datetime.datetime.strptime(name, "%d.%m.%Y").date()`: succeeds exactly on
ten-character `DD.MM.YYYY` strings denoting a valid calendar date, and raises
`ValueError` (modelled as `none`) otherwise. -/
def strptimeDMY (s : String) : Option Date :=
  match s.data with
  | [d1, d2, p1, m1, m2, p2, y1, y2, y3, y4] =>
    if [d1, d2, m1, m2, y1, y2, y3, y4].all isDigit && p1 == '.' && p2 == '.' then
      let d := 10 * digitVal d1 + digitVal d2
      let m := 10 * digitVal m1 + digitVal m2
      let y := 1000 * digitVal y1 + 100 * digitVal y2 + 10 * digitVal y3 + digitVal y4
      if validDMY d m y then some ⟨y, m, d⟩ else none
    else none
  | _ => none

/-- Chronological strict order on dates (year, then month, then day). -/
def dateLT (a b : Date) : Bool :=
  decide (a.year < b.year ∨ (a.year = b.year ∧
    (a.month < b.month ∨ (a.month = b.month ∧ a.day < b.day))))

/-- The errors `find_latest_date_folder` can raise: the two `SystemExit`
messages (lines 19 and 26) and the `ValueError` escaping `strptime`. -/
inductive BuildError where
  | missingDataDir
  | noDatedFolder
  | valueError
deriving DecidableEq

/-- The collection loop of `find_latest_date_folder`: walk the entries in
iteration order and keep `(date, name)` for every directory whose name
matches the pattern; a matching name that `strptime` rejects raises
`ValueError` out of the whole function. -/
def collectCandidates : List Entry → Except BuildError (List (Date × String))
  | [] => .ok []
  | e :: es =>
    if e.isDir && matchesDatePattern e.name then
      match strptimeDMY e.name with
      | none => .error .valueError
      | some d => (collectCandidates es).map (fun rest => (d, e.name) :: rest)
    else collectCandidates es

/-- `candidates.sort(key=date, reverse=True); candidates[0]`: Python's sort is
stable, so this picks the first entry, in directory order, among those with
the maximal date. -/
def selectLatest (x : Date × String) (xs : List (Date × String)) : Date × String :=
  xs.foldl (fun acc y => if dateLT acc.1 y.1 then y else acc) x

/-- `find_latest_date_folder` from build.py.  The data root is `none` when
`Data/` does not exist, otherwise the list of its entries in iteration order.
Returns the chosen folder's name and parsed date, or the raised error. -/
def find_latest_date_folder (root : Option (List Entry)) :
    Except BuildError (String × Date) :=
  match root with
  | none => .error .missingDataDir
  | some entries =>
    match collectCandidates entries with
    | .error e => .error e
    | .ok [] => .error .noDatedFolder
    | .ok (x :: xs) => .ok ((selectLatest x xs).2, (selectLatest x xs).1)

/-- The subdirectories whose names match the date pattern (the claim's notion
of "matching subdirectory"). -/
def matchingEntries (entries : List Entry) : List Entry :=
  entries.filter (fun e => e.isDir && matchesDatePattern e.name)

/-- The calendar date an entry's name parses to (placeholder date when
`strptime` fails; only used where success is known). -/
def parsedDate (e : Entry) : Date := (strptimeDMY e.name).getD ⟨0, 0, 0⟩

/-! ### CSV normalisation (`read_csv_safe`, build.py lines 49-56) -/

/-- A pandas cell value as the defaulting logic observes it: a string, a
number, or Python's `None`. -/
inductive PyVal where
  | str (s : String)
  | num (q : ℚ)
  | none
deriving DecidableEq

/-- A data frame: a row count and the columns in order, each a name together
with its cells. -/
structure DataFrame where
  nrows : ℕ
  cols : List (String × List PyVal)

/-- The recognized field set of `read_csv_safe`, in source order. -/
def expectedColumns : List String :=
  ["symbol", "description", "exchange", "sector", "industry",
   "open", "high", "low", "close"]

/-- The columns whose missing-column default is `None` instead of `""`. -/
def numericColumns : List String := ["open", "high", "low", "close"]

/-- `c in df.columns`. -/
def hasColumn (cols : List (String × List PyVal)) (c : String) : Bool :=
  cols.any (fun kv => kv.1 == c)

/-- First column of a given name. -/
def getColumn (cols : List (String × List PyVal)) (c : String) :
    Option (List PyVal) :=
  (cols.find? (fun kv => kv.1 == c)).map (fun kv => kv.2)

/-- The whole-column default `read_csv_safe` assigns to a missing column
`c`: `None` for the numeric columns, the empty string otherwise. -/
def defaultCell (c : String) : PyVal :=
  if numericColumns.contains c then PyVal.none else PyVal.str ""

/-- The `for c in [...]` loop of `read_csv_safe`: append a whole-column
default for every expected column not already present. -/
def addMissing (nrows : ℕ) (acc : List (String × List PyVal)) :
    List String → List (String × List PyVal)
  | [] => acc
  | c :: cs =>
    addMissing nrows
      (if hasColumn acc c then acc
       else acc ++ [(c, List.replicate nrows (defaultCell c))]) cs

/-- `read_csv_safe` from build.py: rename every column to its trimmed
lower-case form, then give each still-missing expected column a whole-column
default.  Total — a missing column is never an error. -/
def read_csv_safe (df : DataFrame) : DataFrame :=
  { nrows := df.nrows
    cols := addMissing df.nrows
      (df.cols.map (fun kv => (pyStripLower kv.1, kv.2))) expectedColumns }

/-! ### Per-row build step (`main`, build.py lines 168-219) -/

/-- One normalised CSV record as the row loop of `main` reads it: textual
fields as strings, each OHLC cell as `some q` when `float(...)` succeeds on it
and `none` when the conversion raises. -/
structure StockRow where
  symbol : String
  description : String
  exchange : String
  sector : String
  industry : String
  open_ : Option ℚ
  high : Option ℚ
  low : Option ℚ
  close : Option ℚ
deriving DecidableEq

/-- The `try: o = float(...) ... except: o = h = l = c = None` block: the four
parsed prices, or `none` for all of them when any conversion raises. -/
def rowOHLC (r : StockRow) : Option (ℚ × ℚ × ℚ × ℚ) :=
  match r.open_, r.high, r.low, r.close with
  | some o, some h, some l, some c => some (o, h, l, c)
  | _, _, _, _ => none

/-- `sym = str(row["symbol"]).strip()`. -/
def symOf (r : StockRow) : String := pyStrip r.symbol

/-- `name = str(row["description"]).strip() or sym`. -/
def nameOf (r : StockRow) : String :=
  if pyStrip r.description = "" then symOf r else pyStrip r.description

/-- `s_slug = slug(name or sym)`. -/
def sSlugOf (r : StockRow) : String :=
  slug (if nameOf r = "" then symOf r else nameOf r)

/-- The `<tr>` appended to `rows_html` for every CSV row, structurally (the
surrounding HTML text is mechanical templating): the close cell is blank when
`close` is unavailable and the signal cell is blank when no classification was
computed. -/
structure TableRow where
  sym : String
  name : String
  exch : String
  sec : String
  ind : String
  closeCell : Option ℚ
  signal : String
deriving DecidableEq

/-- The table row built at lines 210-219. -/
def mkTableRow (r : StockRow) : TableRow :=
  { sym := symOf r
    name := nameOf r
    exch := pyStrip r.exchange
    sec := pyStrip r.sector
    ind := pyStrip r.industry
    closeCell := (rowOHLC r).map (fun x => x.2.2.2)
    signal := match rowOHLC r with
      | some (o, h, l, c) => (classify o h l c).1
      | Option.none => "" }

/-- An output page: its path below `dist` and its canonical URL. -/
structure Page where
  path : List String
  canonical : String
deriving DecidableEq

/-- The per-stock detail page written at lines 199-207: path
`dist/{r_slug}/{c_slug}/{s_slug}/index.html`, canonical URL
`{BASE_URL}/{r_slug}/{c_slug}/{s_slug}/`. -/
def mkDetailPage (base rSlug cSlug : String) (r : StockRow) : Page :=
  { path := [rSlug, cSlug, sSlugOf r, "index.html"]
    canonical := base ++ "/" ++ rSlug ++ "/" ++ cSlug ++ "/" ++ sSlugOf r ++ "/" }

/-- The row loop of `main` (lines 168-219) for one country: a single pass
over the rows which writes a detail page when OHLC is complete and then
appends exactly one table row. -/
def processRows (base rSlug cSlug : String) (rows : List StockRow) :
    List TableRow × List Page :=
  rows.foldl
    (fun acc r =>
      let acc2 :=
        if (rowOHLC r).isSome then (acc.1, acc.2 ++ [mkDetailPage base rSlug cSlug r])
        else acc
      (acc2.1 ++ [mkTableRow r], acc2.2))
    ([], [])

/-! ### Output writer, sitemap and robots (`main`, lines 113-116, 256-271) -/

/-- A filesystem: finitely many files, each a path (component list) with its
content.  Paths are kept distinct by `fsWrite`. -/
abbrev FS := List (List String × String)

/-- Content of the file at `p`, if any. -/
def fsGet (fs : FS) (p : List String) : Option String :=
  (fs.find? (fun kv => kv.1 == p)).map (fun kv => kv.2)

/-- Create or overwrite one file. -/
def fsWrite (fs : FS) (p : List String) (content : String) : FS :=
  (p, content) :: fs.filter (fun kv => kv.1 != p)

/-- `shutil.rmtree(DIST)` guarded by `DIST.exists()`, plus the recreation of
the root: every file under the `dist` component disappears (a no-op when
there are none). -/
def rmtreeDist (fs : FS) : FS := fs.filter (fun kv => kv.1.head? != some "dist")

/-- Perform the build's file writes in order. -/
def applyWrites (fs : FS) (ws : List (List String × String)) : FS :=
  ws.foldl (fun acc w => fsWrite acc w.1 w.2) fs

/-- The output phase of `main`: reset the destination root (lines 113-116),
then write the build's files. -/
def runBuildWrites (prior : FS) (ws : List (List String × String)) : FS :=
  applyWrites (rmtreeDist prior) ws

/-- `DIST.rglob("index.html")` membership: the file is named exactly
`index.html`. -/
def isIndexFile (p : List String) : Bool := p.getLast? == some "index.html"

/-- `rel = "/" + str(p.relative_to(DIST))` followed by `rel[:-10]` (dropping
the trailing `index.html`), prefixed with the base URL. -/
def urlOfIndexPath (base : String) (p : List String) : String :=
  base ++ ("/" ++ String.intercalate "/" p).dropRight 10

/-- The `urls` list of `main` (lines 261-264): walk the actually written
output tree and convert every `index.html` path back to a URL. -/
def sitemapUrls (base : String) (files : List (List String)) : List String :=
  (files.filter isIndexFile).map (urlOfIndexPath base)

/-- The `sitemap.xml` text (lines 265-270). -/
def sitemapXml (urls : List String) : String :=
  "<?xml version='1.0' encoding='UTF-8'?>" ++
  "<urlset xmlns='http://www.sitemaps.org/schemas/sitemap/0.9'>" ++
  String.join (urls.map (fun u => "<url><loc>" ++ u ++ "</loc></url>")) ++
  "</urlset>"

/-- The exact text written to `robots.txt` (lines 256-259). -/
def robotsTxt (base : String) : String :=
  "Sitemap: " ++ base ++ "/sitemap.xml\nUser-agent: *\nAllow: /\n"

/-- Split a character list at newlines, Python `splitlines`-style except that
a trailing newline yields a final empty line (so a text of n newline-terminated
lines splits into those n lines plus one empty tail). -/
def splitLines : List Char → List (List Char)
  | [] => [[]]
  | c :: cs =>
    if c = '\n' then [] :: splitLines cs
    else
      match splitLines cs with
      | [] => [[c]]
      | l :: ls => (c :: l) :: ls

end SSG

/-! ## Theorems -/

/-- Claim C2: for every OHLC quadruple, the confidence component returned by
`classify` lies in the interval `[0.5, 0.9]`; in particular this holds for all
non-degenerate inputs with positive range. -/
theorem classify_confidence_bounds (o h l c : ℚ) :
    1/2 ≤ (SSG.classify o h l c).2.1 ∧ (SSG.classify o h l c).2.1 ≤ 9/10 := by
  unfold SSG.classify
  simp only
  split_ifs with h1 h2 h3 h4
  · exact ⟨le_refl _, by norm_num⟩
  · exact ⟨le_refl _, by norm_num⟩
  · refine ⟨le_min (by norm_num) ?_, min_le_left _ _⟩
    have hratio : (1/5 : ℚ) ≤ |c - o| / (max h l - min h l) := le_of_not_lt h2
    linarith
  · refine ⟨le_min (by norm_num) ?_, min_le_left _ _⟩
    have hratio : (1/5 : ℚ) ≤ |c - o| / (max h l - min h l) := le_of_not_lt h2
    linarith
  · exact ⟨le_refl _, by norm_num⟩

/-- Claim C3: `next_business_day` adds 3 days on a Friday, 2 days on a
Saturday, and 1 day otherwise; the result is strictly greater than the input
and never falls on a Saturday (weekday 5) or a Sunday (weekday 6). -/
theorem next_business_day_spec (d : ℤ) :
    (SSG.weekday d = 4 → SSG.next_business_day d = d + 3) ∧
    (SSG.weekday d = 5 → SSG.next_business_day d = d + 2) ∧
    (SSG.weekday d ≠ 4 → SSG.weekday d ≠ 5 → SSG.next_business_day d = d + 1) ∧
    d < SSG.next_business_day d ∧
    SSG.weekday (SSG.next_business_day d) ≠ 5 ∧
    SSG.weekday (SSG.next_business_day d) ≠ 6 := by
  unfold SSG.next_business_day SSG.weekday
  split_ifs with h1 h2 <;> refine ⟨?_, ?_, ?_, ?_, ?_, ?_⟩ <;> omega

/-- Concrete instance of `next_business_day_spec`: day 5 (0001-01-05) is a
Friday, projected to day 8 (the following Monday). -/
theorem next_business_day_spec_witness :
    SSG.weekday 5 = 4 ∧ SSG.next_business_day 5 = 5 + 3 ∧ 5 < SSG.next_business_day 5 := by
  have h := next_business_day_spec 5
  have h4 : SSG.weekday 5 = 4 := by decide
  exact ⟨h4, h.1 h4, h.2.2.2.1⟩

/-- The row loop is a map on table rows and a filter-map on detail pages. -/
theorem processRows_eq (base rSlug cSlug : String) (rows : List SSG.StockRow) :
    SSG.processRows base rSlug cSlug rows =
      (rows.map SSG.mkTableRow,
       (rows.filter (fun r => (SSG.rowOHLC r).isSome)).map
         (SSG.mkDetailPage base rSlug cSlug)) := by
  suffices h : ∀ (rs : List SSG.StockRow) (a : List SSG.TableRow) (b : List SSG.Page),
      rs.foldl
        (fun acc r =>
          let acc2 :=
            if (SSG.rowOHLC r).isSome then
              (acc.1, acc.2 ++ [SSG.mkDetailPage base rSlug cSlug r])
            else acc
          (acc2.1 ++ [SSG.mkTableRow r], acc2.2)) (a, b) =
      (a ++ rs.map SSG.mkTableRow,
       b ++ (rs.filter (fun r => (SSG.rowOHLC r).isSome)).map
         (SSG.mkDetailPage base rSlug cSlug)) by
    simpa [SSG.processRows] using h rows [] []
  intro rs
  induction rs with
  | nil => intro a b; simp
  | cons r rest ih =>
    intro a b
    by_cases hr : (SSG.rowOHLC r).isSome
    · simp [hr, ih, List.filter_cons]
    · simp [hr, ih, List.filter_cons]

/-- Claim C1: for every CSV data row processed by the per-country loop,
exactly one table row is appended in order (no row dropped), a detail page is
written if and only if all four of open, high, low, close are present and
parse as numbers, and a written detail page's canonical URL is
`base/region-slug/country-slug/stock-slug/`. -/
theorem build_rows_and_detail_pages (base rSlug cSlug : String)
    (rows : List SSG.StockRow) :
    (SSG.processRows base rSlug cSlug rows).1 = rows.map SSG.mkTableRow ∧
    (SSG.processRows base rSlug cSlug rows).2 =
      (rows.filter (fun r => (SSG.rowOHLC r).isSome)).map
        (SSG.mkDetailPage base rSlug cSlug) ∧
    (∀ r : SSG.StockRow, (SSG.rowOHLC r).isSome =
      (r.open_.isSome && r.high.isSome && r.low.isSome && r.close.isSome)) ∧
    (∀ r : SSG.StockRow, (SSG.mkDetailPage base rSlug cSlug r).canonical =
      base ++ "/" ++ rSlug ++ "/" ++ cSlug ++ "/" ++ SSG.sSlugOf r ++ "/") := by
  refine ⟨?_, ?_, ?_, ?_⟩
  · rw [processRows_eq]
  · rw [processRows_eq]
  · rintro ⟨s, d, e, sec, i, o, h, l, c⟩
    cases o <;> cases h <;> cases l <;> cases c <;> rfl
  · intro r; rfl

/-- Claim C5: the sitemap contains exactly one url entry per `index.html`
file present in the walked output tree, each equal to the base URL plus the
file's path with the trailing `index.html` stripped; hence every sitemap URL
corresponds to a produced file. -/
theorem sitemap_reflects_output_tree (base : String) (files : List (List String)) :
    (SSG.sitemapUrls base files).length = (files.filter SSG.isIndexFile).length ∧
    (∀ u : String, u ∈ SSG.sitemapUrls base files ↔
      ∃ p, p ∈ files ∧ SSG.isIndexFile p = true ∧ u = SSG.urlOfIndexPath base p) := by
  constructor
  · simp [SSG.sitemapUrls]
  · intro u
    simp only [SSG.sitemapUrls, List.mem_map, List.mem_filter]
    constructor
    · rintro ⟨p, ⟨hp, hidx⟩, hu⟩
      exact ⟨p, hp, hidx, hu.symm⟩
    · rintro ⟨p, hp, hidx, hu⟩
      exact ⟨p, ⟨hp, hidx⟩, hu.symm⟩

/-- Filtering out the entries at a key other than `p` does not change the
first entry found at `p`. -/
theorem find?_filter_ne (fs : SSG.FS) (p q : List String) (hpq : p ≠ q) :
    (fs.filter (fun kv => kv.1 != q)).find? (fun kv => kv.1 == p) =
      fs.find? (fun kv => kv.1 == p) := by
  induction fs with
  | nil => rfl
  | cons kv rest ih =>
    by_cases hkp : kv.1 = p
    · have hkq : (kv.1 != q) = true := by
        simp only [bne_iff_ne, ne_eq]
        intro h
        exact hpq (hkp.symm.trans h)
      simp [List.filter_cons, hkq, List.find?_cons, hkp, hpq]
    · by_cases hkq : kv.1 = q
      · have h1 : (kv.1 != q) = false := by simp [hkq]
        have h2 : (kv.1 == p) = false := by simp [hkp]
        simp [List.filter_cons, h1, List.find?_cons, h2, ih]
      · have h1 : (kv.1 != q) = true := by simp [hkq]
        have h2 : (kv.1 == p) = false := by simp [hkp]
        simp [List.filter_cons, h1, List.find?_cons, h2, ih]

/-- Reading after a write: the written path sees the new content, any other
path is untouched. -/
theorem fsGet_fsWrite (fs : SSG.FS) (p q : List String) (c : String) :
    SSG.fsGet (SSG.fsWrite fs q c) p = if p = q then some c else SSG.fsGet fs p := by
  by_cases hpq : p = q
  · subst hpq
    simp [SSG.fsGet, SSG.fsWrite, List.find?_cons]
  · have hq : (q == p) = false := by
      simp only [beq_eq_false_iff_ne, ne_eq]
      intro h; exact hpq h.symm
    simp only [SSG.fsGet, SSG.fsWrite, List.find?_cons, hq, cond_false, if_neg hpq]
    rw [find?_filter_ne fs p q hpq]

/-- After `rmtree`, nothing is left under the `dist` root. -/
theorem fsGet_rmtreeDist (fs : SSG.FS) (p : List String)
    (hp : p.head? = some "dist") :
    SSG.fsGet (SSG.rmtreeDist fs) p = none := by
  induction fs with
  | nil => rfl
  | cons kv rest ih =>
    simp only [SSG.rmtreeDist, List.filter_cons] at *
    by_cases hk : kv.1.head? = some "dist"
    · simp [hk, ih]
    · have h1 : (kv.1.head? != some "dist") = true := by simp [hk]
      have h2 : (kv.1 == p) = false := by
        simp [beq_eq_false_iff_ne]
        intro h; subst h; exact hk hp
      simp only [h1, if_true]
      simp [SSG.fsGet, List.find?_cons, h2] at ih ⊢
      exact ih

/-- Applying the same writes to two states that agree at `p` yields states
that agree at `p`. -/
theorem applyWrites_congr (ws : List (List String × String)) (fs fs2 : SSG.FS)
    (p : List String) (h : SSG.fsGet fs p = SSG.fsGet fs2 p) :
    SSG.fsGet (SSG.applyWrites fs ws) p = SSG.fsGet (SSG.applyWrites fs2 ws) p := by
  induction ws generalizing fs fs2 with
  | nil => exact h
  | cons w rest ih =>
    simp only [SSG.applyWrites, List.foldl_cons] at *
    apply ih
    rw [fsGet_fsWrite, fsGet_fsWrite, h]

/-- Claim C6: the destination root is cleared before the build's writes, so
under `dist` the final state is exactly the state the same writes produce on
an empty filesystem — no file of a prior build survives. -/
theorem rebuild_clears_output_root (prior : SSG.FS)
    (ws : List (List String × String)) (p : List String)
    (hp : p.head? = some "dist") :
    SSG.fsGet (SSG.runBuildWrites prior ws) p = SSG.fsGet (SSG.applyWrites [] ws) p := by
  unfold SSG.runBuildWrites
  apply applyWrites_congr
  rw [fsGet_rmtreeDist prior p hp]
  rfl

/-- Concrete instance of `rebuild_clears_output_root`: a stale file
`dist/old` does not survive a rebuild that writes only `dist/index.html`. -/
theorem rebuild_clears_output_root_witness :
    SSG.fsGet
        (SSG.runBuildWrites [(["dist", "old"], "stale")]
          [(["dist", "index.html"], "home")]) ["dist", "old"] =
      SSG.fsGet (SSG.applyWrites [] [(["dist", "index.html"], "home")]) ["dist", "old"] :=
  rebuild_clears_output_root [(["dist", "old"], "stale")]
    [(["dist", "index.html"], "home")] ["dist", "old"] rfl

/-- `splitLines` never returns the empty list. -/
theorem splitLines_ne_nil (l : List Char) : SSG.splitLines l ≠ [] := by
  induction l with
  | nil => simp [SSG.splitLines]
  | cons c cs ih =>
    unfold SSG.splitLines
    by_cases hc : c = '\n'
    · simp [hc]
    · simp only [if_neg hc]
      cases h : SSG.splitLines cs with
      | nil => simp
      | cons l0 ls => simp

/-- Unfolding equation of `splitLines` on a cons cell. -/
theorem splitLines_cons (c : Char) (cs : List Char) :
    SSG.splitLines (c :: cs) =
      if c = '\n' then [] :: SSG.splitLines cs
      else
        match SSG.splitLines cs with
        | [] => [[c]]
        | l :: ls => (c :: l) :: ls := rfl

/-- Prepending newline-free text extends the first line and nothing else. -/
theorem splitLines_append (xs ys : List Char) (h : '\n' ∉ xs) :
    SSG.splitLines (xs ++ ys) =
      (xs ++ (SSG.splitLines ys).headI) :: (SSG.splitLines ys).tail := by
  induction xs with
  | nil =>
    simp only [List.nil_append]
    cases hy : SSG.splitLines ys with
    | nil => exact absurd hy (splitLines_ne_nil ys)
    | cons a as => simp [List.headI]
  | cons c cs ih =>
    have hc : c ≠ '\n' := by
      intro hh
      exact h (hh ▸ List.mem_cons_self c cs)
    have hcs : '\n' ∉ cs := fun hh => h (List.mem_cons_of_mem c hh)
    rw [List.cons_append, splitLines_cons, if_neg hc, ih hcs]
    simp

/-- Claim C9 as frozen is false: the emitted `robots.txt` does not have two
lines.  At the concrete base URL `https://example.com` the text splits into
three newline-terminated lines (four `splitLines` fields), and the line the
claim names as the second one occurs nowhere. -/
theorem robots_txt_two_lines_counterexample :
    (SSG.splitLines (SSG.robotsTxt "https://example.com").data).length = 4 ∧
    SSG.splitLines (SSG.robotsTxt "https://example.com").data ≠
      ["Sitemap: https://example.com/sitemap.xml".data, "User-agent: * / Allow: /".data] ∧
    "User-agent: * / Allow: /".data ∉
      SSG.splitLines (SSG.robotsTxt "https://example.com").data := by decide

/-- Claim C9 (amended): for every newline-free base URL, `robots.txt`
consists of exactly three newline-terminated lines — the sitemap reference,
`User-agent: *` and `Allow: /`. -/
theorem robots_txt_lines (base : String) (hb : '\n' ∉ base.data) :
    SSG.splitLines (SSG.robotsTxt base).data =
      [("Sitemap: " ++ base ++ "/sitemap.xml").data,
       "User-agent: *".data, "Allow: /".data, []] := by
  have hlit : ("/sitemap.xml\nUser-agent: *\nAllow: /\n" : String).data =
      "/sitemap.xml".data ++
        '\n' :: ("User-agent: *".data ++ '\n' :: ("Allow: /".data ++ ['\n'])) := by
    decide
  have hrest : SSG.splitLines
      ("User-agent: *".data ++ '\n' :: ("Allow: /".data ++ ['\n'])) =
      ["User-agent: *".data, "Allow: /".data, []] := by decide
  unfold SSG.robotsTxt
  rw [String.data_append, String.data_append, hlit]
  rw [show ("Sitemap: ".data ++ base.data) ++
        ("/sitemap.xml".data ++
          '\n' :: ("User-agent: *".data ++ '\n' :: ("Allow: /".data ++ ['\n']))) =
      (("Sitemap: ".data ++ base.data) ++ "/sitemap.xml".data) ++
        '\n' :: ("User-agent: *".data ++ '\n' :: ("Allow: /".data ++ ['\n'])) by
    simp [List.append_assoc]]
  have hnl : '\n' ∉ ("Sitemap: ".data ++ base.data) ++ "/sitemap.xml".data := by
    simp only [List.mem_append]
    rintro ((hh | hh) | hh)
    · revert hh; decide
    · exact hb hh
    · revert hh; decide
  rw [splitLines_append _ _ hnl]
  rw [show SSG.splitLines
        ('\n' :: ("User-agent: *".data ++ '\n' :: ("Allow: /".data ++ ['\n']))) =
      [] :: SSG.splitLines
        ("User-agent: *".data ++ '\n' :: ("Allow: /".data ++ ['\n'])) from rfl]
  rw [hrest]
  simp [String.data_append, List.append_assoc]

/-- Concrete instance of `robots_txt_lines` at base `https://example.com`. -/
theorem robots_txt_lines_witness :
    SSG.splitLines (SSG.robotsTxt "https://example.com").data =
      [("Sitemap: " ++ "https://example.com" ++ "/sitemap.xml").data,
       "User-agent: *".data, "Allow: /".data, []] :=
  robots_txt_lines "https://example.com" (by decide)

/-- Unfolding equation of `collectCandidates` on a cons cell. -/
theorem collectCandidates_cons (e : SSG.Entry) (es : List SSG.Entry) :
    SSG.collectCandidates (e :: es) =
      if e.isDir && SSG.matchesDatePattern e.name then
        match SSG.strptimeDMY e.name with
        | none => .error .valueError
        | some d => (SSG.collectCandidates es).map (fun rest => (d, e.name) :: rest)
      else SSG.collectCandidates es := rfl

/-- When every matching directory name parses, the collection loop succeeds
and returns exactly the matching entries, in order, with their dates. -/
theorem collectCandidates_of_valid (es : List SSG.Entry)
    (hvalid : ∀ e ∈ es, e.isDir = true → SSG.matchesDatePattern e.name = true →
      (SSG.strptimeDMY e.name).isSome = true) :
    SSG.collectCandidates es =
      .ok ((SSG.matchingEntries es).map (fun e => (SSG.parsedDate e, e.name))) := by
  induction es with
  | nil => rfl
  | cons e rest ih =>
    have hrest : ∀ x ∈ rest, x.isDir = true → SSG.matchesDatePattern x.name = true →
        (SSG.strptimeDMY x.name).isSome = true :=
      fun x hx => hvalid x (List.mem_cons_of_mem e hx)
    rw [collectCandidates_cons]
    by_cases hm : (e.isDir && SSG.matchesDatePattern e.name) = true
    · have hm2 : e.isDir = true ∧ SSG.matchesDatePattern e.name = true := by
        simpa using hm
      have hs := hvalid e (List.mem_cons_self e rest) hm2.1 hm2.2
      obtain ⟨d, hd⟩ := Option.isSome_iff_exists.mp hs
      rw [if_pos hm, hd, ih hrest]
      simp only [SSG.matchingEntries, List.filter_cons, hm, if_true]
      simp [Except.map, SSG.parsedDate, hd, SSG.matchingEntries]
    · rw [if_neg hm, ih hrest]
      simp only [SSG.matchingEntries, List.filter_cons]
      rw [if_neg hm]

/-- The fold of `selectLatest` returns one of its inputs, and no input has a
strictly later date. -/
theorem selectLatest_spec (xs : List (SSG.Date × String)) (x : SSG.Date × String) :
    (SSG.selectLatest x xs = x ∨ SSG.selectLatest x xs ∈ xs) ∧
    SSG.dateLT (SSG.selectLatest x xs).1 x.1 = false ∧
    ∀ y ∈ xs, SSG.dateLT (SSG.selectLatest x xs).1 y.1 = false := by
  induction xs generalizing x with
  | nil =>
    refine ⟨Or.inl rfl, ?_, by simp⟩
    simp only [SSG.selectLatest, List.foldl_nil, SSG.dateLT, decide_eq_false_iff_not]
    omega
  | cons y ys ih =>
    have hstep : SSG.selectLatest x (y :: ys) =
        SSG.selectLatest (if SSG.dateLT x.1 y.1 then y else x) ys := rfl
    obtain ⟨hmem, hz, hall⟩ := ih (if SSG.dateLT x.1 y.1 then y else x)
    rw [hstep]
    by_cases hxy : SSG.dateLT x.1 y.1 = true
    · rw [if_pos hxy] at hmem hz hall ⊢
      refine ⟨?_, ?_, ?_⟩
      · rcases hmem with h | h
        · exact Or.inr (by rw [h]; exact List.mem_cons_self y ys)
        · exact Or.inr (List.mem_cons_of_mem y h)
      · revert hz hxy
        simp only [SSG.dateLT, decide_eq_false_iff_not, decide_eq_true_eq]
        intro hz hxy
        omega
      · intro y2 hy2
        rcases List.mem_cons.mp hy2 with h | h
        · exact h ▸ hz
        · exact hall y2 h
    · have hxy2 : SSG.dateLT x.1 y.1 = false := by
        revert hxy
        cases SSG.dateLT x.1 y.1 <;> simp
      rw [if_neg hxy] at hmem hz hall ⊢
      refine ⟨?_, ?_, ?_⟩
      · rcases hmem with h | h
        · exact Or.inl h
        · exact Or.inr (List.mem_cons_of_mem y h)
      · exact hz
      · intro y2 hy2
        rcases List.mem_cons.mp hy2 with h | h
        · subst h
          revert hz hxy2
          simp only [SSG.dateLT, decide_eq_false_iff_not]
          intro hz hxy2
          omega
        · exact hall y2 h

/-- Unfolding equation of the locator on a present data root. -/
theorem find_latest_some (es : List SSG.Entry) :
    SSG.find_latest_date_folder (some es) =
      match SSG.collectCandidates es with
      | .error e => .error e
      | .ok [] => .error .noDatedFolder
      | .ok (x :: xs) =>
        .ok ((SSG.selectLatest x xs).2, (SSG.selectLatest x xs).1) := rfl

/-- Claim C4 (amended): provided every pattern-matching directory name parses
as a valid calendar date, the locator fails with the fatal no-data error if
and only if the data root is absent or has zero matching subdirectories, and
otherwise returns a matching subdirectory of maximal date. -/
theorem locator_no_data_iff_max (es : List SSG.Entry)
    (hvalid : ∀ e ∈ es, e.isDir = true → SSG.matchesDatePattern e.name = true →
      (SSG.strptimeDMY e.name).isSome = true) :
    SSG.find_latest_date_folder none = .error .missingDataDir ∧
    (SSG.matchingEntries es = [] →
      SSG.find_latest_date_folder (some es) = .error .noDatedFolder) ∧
    (SSG.matchingEntries es ≠ [] →
      ∃ e ∈ SSG.matchingEntries es,
        SSG.find_latest_date_folder (some es) = .ok (e.name, SSG.parsedDate e) ∧
        ∀ e2 ∈ SSG.matchingEntries es,
          SSG.dateLT (SSG.parsedDate e) (SSG.parsedDate e2) = false) := by
  refine ⟨rfl, ?_, ?_⟩
  · intro hempty
    rw [find_latest_some, collectCandidates_of_valid es hvalid, hempty]
    rfl
  · intro hne
    rw [find_latest_some, collectCandidates_of_valid es hvalid]
    cases hm : SSG.matchingEntries es with
    | nil => exact absurd hm hne
    | cons m0 ms =>
      simp only [List.map_cons]
      obtain ⟨hmem, hz, hall⟩ :=
        selectLatest_spec (ms.map (fun e => (SSG.parsedDate e, e.name)))
          (SSG.parsedDate m0, m0.name)
      have hbest : ∃ e0 ∈ m0 :: ms,
          SSG.selectLatest (SSG.parsedDate m0, m0.name)
            (ms.map (fun e => (SSG.parsedDate e, e.name))) =
          (SSG.parsedDate e0, e0.name) := by
        rcases hmem with h | h
        · exact ⟨m0, List.mem_cons_self m0 ms, h⟩
        · obtain ⟨e0, he0, heq⟩ := List.mem_map.mp h
          exact ⟨e0, List.mem_cons_of_mem m0 he0, heq.symm⟩
      obtain ⟨e0, he0, heq⟩ := hbest
      refine ⟨e0, he0, ?_, ?_⟩
      · rw [heq]
      · intro e2 he2
        rcases List.mem_cons.mp he2 with h | h
        · subst h
          have := hz
          rw [heq] at this
          exact this
        · have := hall (SSG.parsedDate e2, e2.name)
            (List.mem_map.mpr ⟨e2, h, rfl⟩)
          rw [heq] at this
          exact this

/-- Concrete instance of `locator_no_data_iff_max`: among two dated folders
the later one (15.03.2024) is selected. -/
theorem locator_no_data_iff_max_witness :
    ∃ e ∈ SSG.matchingEntries [⟨"01.02.2024", true⟩, ⟨"15.03.2024", true⟩, ⟨"junk", true⟩],
      SSG.find_latest_date_folder
          (some [⟨"01.02.2024", true⟩, ⟨"15.03.2024", true⟩, ⟨"junk", true⟩]) =
        .ok (e.name, SSG.parsedDate e) ∧
      ∀ e2 ∈ SSG.matchingEntries [⟨"01.02.2024", true⟩, ⟨"15.03.2024", true⟩, ⟨"junk", true⟩],
        SSG.dateLT (SSG.parsedDate e) (SSG.parsedDate e2) = false :=
  (locator_no_data_iff_max _ (by decide)).2.2 (by decide)

/-- Claim C4 as frozen is false: a directory named `99.99.9999` matches the
strict `DD.MM.YYYY` pattern, so the claim requires the locator to return the
maximal matching subdirectory, but the code instead raises a `ValueError`
from `strptime` — which is neither of the two fatal no-data errors nor a
success. -/
theorem locator_counterexample :
    SSG.matchingEntries [⟨"99.99.9999", true⟩] = [⟨"99.99.9999", true⟩] ∧
    SSG.find_latest_date_folder (some [⟨"99.99.9999", true⟩]) =
      .error .valueError ∧
    SSG.BuildError.valueError ≠ SSG.BuildError.noDatedFolder ∧
    SSG.BuildError.valueError ≠ SSG.BuildError.missingDataDir :=
  ⟨rfl, rfl, by decide, by decide⟩

/-- Column presence distributes over append. -/
theorem hasColumn_append (cols cols2 : List (String × List SSG.PyVal)) (c : String) :
    SSG.hasColumn (cols ++ cols2) c = (SSG.hasColumn cols c || SSG.hasColumn cols2 c) := by
  simp [SSG.hasColumn, List.any_append]

/-- Lookup in an append checks the left part first. -/
theorem getColumn_append (cols cols2 : List (String × List SSG.PyVal)) (c : String) :
    SSG.getColumn (cols ++ cols2) c =
      if SSG.hasColumn cols c then SSG.getColumn cols c else SSG.getColumn cols2 c := by
  induction cols with
  | nil => simp [SSG.hasColumn, SSG.getColumn]
  | cons kv rest ih =>
    cases hk : (kv.1 == c) with
    | true =>
      simp [SSG.hasColumn, SSG.getColumn, List.find?_cons, hk]
    | false =>
      simp only [List.cons_append, SSG.getColumn, List.find?_cons, hk, cond_false,
        SSG.hasColumn, List.any_cons, Bool.false_or]
      exact ih

/-- The defaulting loop never removes a present column. -/
theorem hasColumn_addMissing_mono (n : ℕ) (cs : List String)
    (acc : List (String × List SSG.PyVal)) (c : String)
    (h : SSG.hasColumn acc c = true) :
    SSG.hasColumn (SSG.addMissing n acc cs) c = true := by
  induction cs generalizing acc with
  | nil => exact h
  | cons c2 cs2 ih =>
    show SSG.hasColumn (SSG.addMissing n _ cs2) c = true
    apply ih
    by_cases h2 : SSG.hasColumn acc c2 = true
    · rw [if_pos h2]; exact h
    · rw [if_neg h2, hasColumn_append, h, Bool.true_or]

/-- Every requested column is present after the defaulting loop. -/
theorem hasColumn_addMissing_of_mem (n : ℕ) (acc : List (String × List SSG.PyVal))
    (c : String) (cs : List String) (h : c ∈ cs) :
    SSG.hasColumn (SSG.addMissing n acc cs) c = true := by
  induction cs generalizing acc with
  | nil => cases h
  | cons c2 cs2 ih =>
    by_cases hcc : c2 = c
    · subst hcc
      show SSG.hasColumn (SSG.addMissing n _ cs2) c2 = true
      apply hasColumn_addMissing_mono
      by_cases h2 : SSG.hasColumn acc c2 = true
      · rw [if_pos h2]; exact h2
      · rw [if_neg h2, hasColumn_append]
        simp [SSG.hasColumn]
    · have hmem : c ∈ cs2 := by
        rcases List.mem_cons.mp h with hh | hh
        · exact absurd hh.symm hcc
        · exact hh
      exact ih _ hmem

/-- The defaulting loop never changes the payload of a present column. -/
theorem getColumn_addMissing_stable (n : ℕ) (cs : List String)
    (acc : List (String × List SSG.PyVal)) (c : String)
    (h : SSG.hasColumn acc c = true) :
    SSG.getColumn (SSG.addMissing n acc cs) c = SSG.getColumn acc c := by
  induction cs generalizing acc with
  | nil => rfl
  | cons c2 cs2 ih =>
    show SSG.getColumn (SSG.addMissing n _ cs2) c = _
    by_cases h2 : SSG.hasColumn acc c2 = true
    · rw [if_pos h2]; exact ih _ h
    · rw [if_neg h2]
      rw [ih _ (by rw [hasColumn_append, h, Bool.true_or])]
      rw [getColumn_append, if_pos h]

/-- A column that is absent before the loop and requested by it ends up
holding exactly the whole-column default. -/
theorem getColumn_addMissing_default (n : ℕ) (acc : List (String × List SSG.PyVal))
    (c : String) (cs : List String) (hacc : SSG.hasColumn acc c = false)
    (hmem : c ∈ cs) :
    SSG.getColumn (SSG.addMissing n acc cs) c =
      some (List.replicate n (SSG.defaultCell c)) := by
  induction cs generalizing acc with
  | nil => cases hmem
  | cons c2 cs2 ih =>
    show SSG.getColumn (SSG.addMissing n _ cs2) c = _
    by_cases hcc : c2 = c
    · subst hcc
      rw [if_neg (by rw [hacc]; exact Bool.false_ne_true)]
      rw [getColumn_addMissing_stable n cs2 _ c2
        (by rw [hasColumn_append, hacc, Bool.false_or]; simp [SSG.hasColumn])]
      rw [getColumn_append, if_neg (by rw [hacc]; exact Bool.false_ne_true)]
      simp [SSG.getColumn, List.find?_cons]
    · have hmem2 : c ∈ cs2 := by
        rcases List.mem_cons.mp hmem with hh | hh
        · exact absurd hh.symm hcc
        · exact hh
      by_cases h2 : SSG.hasColumn acc c2 = true
      · rw [if_pos h2]; exact ih _ hacc hmem2
      · rw [if_neg h2]
        refine ih _ ?_ hmem2
        rw [hasColumn_append, hacc, Bool.false_or]
        have hne : (c2 == c) = false := by
          simp only [beq_eq_false_iff_ne, ne_eq]
          exact hcc
        simp [SSG.hasColumn, hne]

set_option maxHeartbeats 1000000 in
/-- Unfolding equation for the columns of `read_csv_safe`. -/
theorem read_csv_safe_cols (df : SSG.DataFrame) :
    (SSG.read_csv_safe df).cols =
      SSG.addMissing df.nrows
        (df.cols.map (fun kv => (SSG.pyStripLower kv.1, kv.2)))
        SSG.expectedColumns := rfl

/-- Claim C8: during CSV normalisation every expected column ends up present;
a textual column that was missing defaults to a column of empty strings, a
numeric one to a column of `None` — a marker distinct from every number, in
particular from zero — and the defaulting is total, never an error. -/
theorem csv_missing_columns_defaulted (df : SSG.DataFrame) (c : String)
    (hc : c ∈ SSG.expectedColumns) :
    SSG.hasColumn (SSG.read_csv_safe df).cols c = true ∧
    (SSG.hasColumn (df.cols.map (fun kv => (SSG.pyStripLower kv.1, kv.2))) c = false →
      SSG.getColumn (SSG.read_csv_safe df).cols c =
        some (List.replicate df.nrows (SSG.defaultCell c))) ∧
    (c ∈ SSG.numericColumns → SSG.defaultCell c = SSG.PyVal.none) ∧
    (c ∉ SSG.numericColumns → SSG.defaultCell c = SSG.PyVal.str "") ∧
    (∀ q : ℚ, SSG.PyVal.none ≠ SSG.PyVal.num q) := by
  rw [read_csv_safe_cols]
  refine ⟨hasColumn_addMissing_of_mem _ _ _ _ hc,
    fun h => getColumn_addMissing_default _ _ _ _ h hc, ?_, ?_, ?_⟩
  · intro hn
    simp [SSG.defaultCell, hn]
  · intro hn
    have hnc : SSG.numericColumns.contains c = false := by
      simpa using hn
    simp [SSG.defaultCell, hnc]
    exact hn
  · intro q hq
    cases hq

/-- Concrete instance of `csv_missing_columns_defaulted`: a two-row frame
having only a `Symbol ` column (renamed to `symbol`) gets an `open` column of
two `None` cells. -/
theorem csv_missing_columns_defaulted_witness :
    SSG.hasColumn
      (SSG.read_csv_safe
        ⟨2, [("Symbol ", [SSG.PyVal.str "A", SSG.PyVal.str "B"])]⟩).cols "open" = true ∧
    (SSG.hasColumn
        ((⟨2, [("Symbol ", [SSG.PyVal.str "A", SSG.PyVal.str "B"])]⟩ :
            SSG.DataFrame).cols.map (fun kv => (SSG.pyStripLower kv.1, kv.2)))
        "open" = false →
      SSG.getColumn
        (SSG.read_csv_safe
          ⟨2, [("Symbol ", [SSG.PyVal.str "A", SSG.PyVal.str "B"])]⟩).cols "open" =
        some (List.replicate 2 (SSG.defaultCell "open"))) ∧
    ("open" ∈ SSG.numericColumns → SSG.defaultCell "open" = SSG.PyVal.none) ∧
    ("open" ∉ SSG.numericColumns → SSG.defaultCell "open" = SSG.PyVal.str "") ∧
    (∀ q : ℚ, SSG.PyVal.none ≠ SSG.PyVal.num q) :=
  csv_missing_columns_defaulted
    ⟨2, [("Symbol ", [SSG.PyVal.str "A", SSG.PyVal.str "B"])]⟩ "open" (by decide)

/-- Whitespace is unchanged by lower-casing. -/
theorem pySpace_lowerChar (c : Char) (h : SSG.pySpace c = true) :
    SSG.lowerChar c = c := by
  simp only [SSG.pySpace, decide_eq_true_eq] at h
  unfold SSG.lowerChar
  rw [if_neg (by omega)]

/-- Whitespace is replaced by the regex. -/
theorem pySpace_not_keep (c : Char) (h : SSG.pySpace c = true) :
    SSG.keepChar c = false := by
  simp only [SSG.pySpace, decide_eq_true_eq] at h
  simp only [SSG.keepChar, decide_eq_false_iff_not]
  omega

/-- Kept characters are unchanged by lower-casing. -/
theorem keep_lowerChar (c : Char) (h : SSG.keepChar c = true) :
    SSG.lowerChar c = c := by
  simp only [SSG.keepChar, decide_eq_true_eq] at h
  unfold SSG.lowerChar
  rw [if_neg (by omega)]

/-- The hyphen is unchanged by lower-casing. -/
theorem dash_lowerChar (c : Char) (h : SSG.isDash c = true) :
    SSG.lowerChar c = c := by
  simp only [SSG.isDash, decide_eq_true_eq] at h
  unfold SSG.lowerChar
  rw [if_neg (by omega)]

/-- The hyphen is not a kept character. -/
theorem dash_not_keep (c : Char) (h : SSG.isDash c = true) :
    SSG.keepChar c = false := by
  simp only [SSG.isDash, decide_eq_true_eq] at h
  simp only [SSG.keepChar, decide_eq_false_iff_not]
  omega

/-- Kept characters are not hyphens. -/
theorem keep_not_dash (c : Char) (h : SSG.keepChar c = true) :
    SSG.isDash c = false := by
  simp only [SSG.keepChar, decide_eq_true_eq] at h
  simp only [SSG.isDash, decide_eq_false_iff_not]
  omega

/-- Kept characters are not whitespace. -/
theorem keep_not_space (c : Char) (h : SSG.keepChar c = true) :
    SSG.pySpace c = false := by
  simp only [SSG.keepChar, decide_eq_true_eq] at h
  simp only [SSG.pySpace, decide_eq_false_iff_not]
  omega

/-- The hyphen is not whitespace. -/
theorem dash_not_space (c : Char) (h : SSG.isDash c = true) :
    SSG.pySpace c = false := by
  simp only [SSG.isDash, decide_eq_true_eq] at h
  simp only [SSG.pySpace, decide_eq_false_iff_not]
  omega

/-- A character passing the hyphen test is the hyphen. -/
theorem dash_eq (c : Char) (h : SSG.isDash c = true) : c = '-' := by
  simp only [SSG.isDash, decide_eq_true_eq] at h
  apply Char.ext
  apply UInt32.ext
  exact h

/-- `collapseAux` keeps a kept character in either state. -/
theorem collapseAux_cons_keep (b : Bool) (c : Char) (cs : List Char)
    (h : SSG.keepChar c = true) :
    SSG.collapseAux b (c :: cs) = c :: SSG.collapseAux false cs := by
  cases b <;> simp [SSG.collapseAux, h]

/-- `collapseAux` opens a replacement run with one hyphen. -/
theorem collapseAux_cons_junk_false (c : Char) (cs : List Char)
    (h : SSG.keepChar c = false) :
    SSG.collapseAux false (c :: cs) = '-' :: SSG.collapseAux true cs := by
  simp [SSG.collapseAux, h]

/-- `collapseAux` swallows further characters of a replacement run. -/
theorem collapseAux_cons_junk_true (c : Char) (cs : List Char)
    (h : SSG.keepChar c = false) :
    SSG.collapseAux true (c :: cs) = SSG.collapseAux true cs := by
  simp [SSG.collapseAux, h]

/-- Inside a run, a replaced prefix is swallowed entirely. -/
theorem collapseAux_true_junk_append (junk l : List Char)
    (h : ∀ c ∈ junk, SSG.keepChar c = false) :
    SSG.collapseAux true (junk ++ l) = SSG.collapseAux true l := by
  induction junk with
  | nil => rfl
  | cons j js ih =>
    rw [List.cons_append, collapseAux_cons_junk_true j _ (h j (List.mem_cons_self j js))]
    exact ih (fun c hc => h c (List.mem_cons_of_mem j hc))

/-- A replaced run alone collapses to nothing in the in-run state. -/
theorem collapseAux_true_junk (junk : List Char)
    (hj : ∀ c ∈ junk, SSG.keepChar c = false) :
    SSG.collapseAux true junk = [] := by
  have h := collapseAux_true_junk_append junk [] hj
  simpa using h

/-- Stripping absorbs a leading matching character. -/
theorem stripEnds_cons_pos (p : Char → Bool) (c : Char) (x : List Char)
    (h : p c = true) :
    SSG.stripEnds p (c :: x) = SSG.stripEnds p x := by
  simp [SSG.stripEnds, List.dropWhile_cons_of_pos h]

/-- After hyphen-stripping, the starting state of the collapse scanner does
not matter. -/
theorem stripDash_collapse_true_false (l : List Char) :
    SSG.stripEnds SSG.isDash (SSG.collapseAux true l) =
      SSG.stripEnds SSG.isDash (SSG.collapseAux false l) := by
  cases l with
  | nil => rfl
  | cons c cs =>
    cases hk : SSG.keepChar c with
    | true => rw [collapseAux_cons_keep true c cs hk, collapseAux_cons_keep false c cs hk]
    | false =>
      rw [collapseAux_cons_junk_true c cs hk, collapseAux_cons_junk_false c cs hk,
        stripEnds_cons_pos _ _ _ (by decide)]

/-- A replaced prefix leaves the final stripped collapse unchanged. -/
theorem stripDash_collapse_junk_left (junk l : List Char)
    (h : ∀ c ∈ junk, SSG.keepChar c = false) :
    SSG.stripEnds SSG.isDash (SSG.collapseAux false (junk ++ l)) =
      SSG.stripEnds SSG.isDash (SSG.collapseAux false l) := by
  cases junk with
  | nil => rfl
  | cons j js =>
    rw [List.cons_append, collapseAux_cons_junk_false j _ (h j (List.mem_cons_self j js)),
      stripEnds_cons_pos _ _ _ (by decide),
      collapseAux_true_junk_append js l (fun c hc => h c (List.mem_cons_of_mem j hc)),
      stripDash_collapse_true_false]

/-- Stripping absorbs one trailing matching character. -/
theorem stripEnds_append_single (p : Char → Bool) (x : List Char) (c : Char)
    (h : p c = true) :
    SSG.stripEnds p (x ++ [c]) = SSG.stripEnds p x := by
  unfold SSG.stripEnds
  rw [List.dropWhile_append]
  by_cases he : (x.dropWhile p).isEmpty = true
  · rw [if_pos he, List.dropWhile_cons_of_pos h]
    rw [List.isEmpty_iff] at he
    rw [he]
    rfl
  · rw [if_neg he, List.reverse_append]
    simp only [List.reverse_cons, List.reverse_nil, List.nil_append, List.singleton_append]
    rw [List.dropWhile_cons_of_pos h]

/-- Appending a replaced run changes the collapse by at most one trailing
hyphen. -/
theorem collapseAux_append_junk (junk : List Char)
    (hj : ∀ c ∈ junk, SSG.keepChar c = false) (l : List Char) (b : Bool) :
    SSG.collapseAux b (l ++ junk) = SSG.collapseAux b l ∨
    SSG.collapseAux b (l ++ junk) = SSG.collapseAux b l ++ ['-'] := by
  induction l generalizing b with
  | nil =>
    simp only [List.nil_append]
    cases b with
    | false =>
      cases junk with
      | nil => exact Or.inl rfl
      | cons j js =>
        right
        rw [collapseAux_cons_junk_false j js (hj j (List.mem_cons_self j js)),
          collapseAux_true_junk js (fun c hc => hj c (List.mem_cons_of_mem j hc))]
        rfl
    | true => exact Or.inl (collapseAux_true_junk junk hj)
  | cons c cs ih =>
    cases hk : SSG.keepChar c with
    | false =>
      cases b with
      | false =>
        rw [List.cons_append, collapseAux_cons_junk_false c _ hk,
          collapseAux_cons_junk_false c cs hk]
        rcases ih true with h | h
        · exact Or.inl (by rw [h])
        · exact Or.inr (by rw [h]; rfl)
      | true =>
        rw [List.cons_append, collapseAux_cons_junk_true c _ hk,
          collapseAux_cons_junk_true c cs hk]
        exact ih true
    | true =>
      rw [List.cons_append, collapseAux_cons_keep b c _ hk,
        collapseAux_cons_keep b c cs hk]
      rcases ih false with h | h
      · exact Or.inl (by rw [h])
      · exact Or.inr (by rw [h]; rfl)

/-- A replaced suffix leaves the final stripped collapse unchanged. -/
theorem stripDash_collapse_junk_suffix (junk : List Char)
    (hj : ∀ c ∈ junk, SSG.keepChar c = false) (l : List Char) :
    SSG.stripEnds SSG.isDash (SSG.collapseAux false (l ++ junk)) =
      SSG.stripEnds SSG.isDash (SSG.collapseAux false l) := by
  rcases collapseAux_append_junk junk hj l false with h | h
  · rw [h]
  · rw [h, stripEnds_append_single _ _ '-' (by decide)]

/-- The whitespace pre-strip of `slug` is invisible in the final result:
`slugList` agrees with the spec-worded `slugSpecList` on every input. -/
theorem slugList_eq_slugSpecList (l : List Char) :
    SSG.slugList l = SSG.slugSpecList l := by
  have hm2 : l.dropWhile SSG.pySpace =
      SSG.stripEnds SSG.pySpace l ++
        ((l.dropWhile SSG.pySpace).reverse.takeWhile SSG.pySpace).reverse := by
    unfold SSG.stripEnds
    conv_lhs => rw [← List.reverse_reverse (l.dropWhile SSG.pySpace),
      ← List.takeWhile_append_dropWhile SSG.pySpace (l.dropWhile SSG.pySpace).reverse]
    rw [List.reverse_append]
  have hsplit : l = l.takeWhile SSG.pySpace ++
      (SSG.stripEnds SSG.pySpace l ++
        ((l.dropWhile SSG.pySpace).reverse.takeWhile SSG.pySpace).reverse) := by
    conv_lhs => rw [← List.takeWhile_append_dropWhile SSG.pySpace l]
    rw [← hm2]
  have hjunk1 : ∀ c ∈ (l.takeWhile SSG.pySpace).map SSG.lowerChar,
      SSG.keepChar c = false := by
    intro c hc
    obtain ⟨a, ha, rfl⟩ := List.mem_map.mp hc
    have hws : SSG.pySpace a = true := List.mem_takeWhile_imp ha
    rw [pySpace_lowerChar a hws]
    exact pySpace_not_keep a hws
  have hjunk2 : ∀ c ∈ ((l.dropWhile SSG.pySpace).reverse.takeWhile SSG.pySpace).reverse.map
      SSG.lowerChar, SSG.keepChar c = false := by
    intro c hc
    obtain ⟨a, ha, rfl⟩ := List.mem_map.mp hc
    have hws : SSG.pySpace a = true :=
      List.mem_takeWhile_imp (List.mem_reverse.mp ha)
    rw [pySpace_lowerChar a hws]
    exact pySpace_not_keep a hws
  have key : SSG.stripEnds SSG.isDash
      (SSG.collapseRuns (((SSG.stripEnds SSG.pySpace l)).map SSG.lowerChar)) =
      SSG.stripEnds SSG.isDash (SSG.collapseRuns (l.map SSG.lowerChar)) := by
    unfold SSG.collapseRuns
    conv_rhs => rw [hsplit]
    rw [List.map_append, List.map_append]
    rw [stripDash_collapse_junk_left _ _ hjunk1]
    rw [stripDash_collapse_junk_suffix _ hjunk2]
  simp only [SSG.slugList, SSG.slugSpecList]
  rw [key]

/-- Claim C7: `slug` realises the spec contract — lower-case, collapse every
run of non-alphanumerics to one hyphen, strip leading and trailing hyphens,
fall back to the literal "stock" on an empty result (the initial whitespace
strip in the code is invisible in the result) — and the three quoted example
evaluations hold. -/
theorem slug_contract :
    (∀ s : String, SSG.slug s = SSG.slug_spec s) ∧
    SSG.slug "Reliance Industries Ltd." = "reliance-industries-ltd" ∧
    SSG.slug "" = "stock" ∧
    SSG.slug "  ***  " = "stock" := by
  refine ⟨?_, by decide, by decide, by decide⟩
  intro s
  show String.mk (SSG.slugList s.data) = String.mk (SSG.slugSpecList s.data)
  rw [slugList_eq_slugSpecList]

/-- `noDD` holds whenever the left character is not a hyphen. -/
theorem noDD_of_left (a y : Char) (h : SSG.isDash a = false) : SSG.noDD a y := by
  intro hand
  rw [hand.1] at h
  cases h

/-- `noDD` holds whenever the right character is not a hyphen. -/
theorem noDD_of_right (a y : Char) (h : SSG.isDash y = false) : SSG.noDD a y := by
  intro hand
  rw [hand.2] at h
  cases h

/-- Every character of a collapse output is kept or a hyphen. -/
theorem collapseAux_mem (l : List Char) (b : Bool) (c : Char)
    (hc : c ∈ SSG.collapseAux b l) :
    SSG.keepChar c = true ∨ SSG.isDash c = true := by
  induction l generalizing b with
  | nil => cases hc
  | cons a t ih =>
    cases hk : SSG.keepChar a with
    | true =>
      rw [collapseAux_cons_keep b a t hk] at hc
      rcases List.mem_cons.mp hc with h | h
      · exact Or.inl (h ▸ hk)
      · exact ih false h
    | false =>
      cases b with
      | false =>
        rw [collapseAux_cons_junk_false a t hk] at hc
        rcases List.mem_cons.mp hc with h | h
        · exact Or.inr (by rw [h]; decide)
        · exact ih true h
      | true =>
        rw [collapseAux_cons_junk_true a t hk] at hc
        exact ih true hc

/-- In the in-run state, the first emitted character is a kept one. -/
theorem collapseAux_true_head (l : List Char) (c : Char)
    (hc : (SSG.collapseAux true l).head? = some c) : SSG.keepChar c = true := by
  induction l with
  | nil => cases hc
  | cons a t ih =>
    cases hk : SSG.keepChar a with
    | true =>
      rw [collapseAux_cons_keep true a t hk, List.head?_cons] at hc
      injection hc with h2
      subst h2
      exact hk
    | false =>
      rw [collapseAux_cons_junk_true a t hk] at hc
      exact ih hc

/-- A collapse output never contains two adjacent hyphens. -/
theorem collapseAux_chain (l : List Char) (b : Bool) :
    (SSG.collapseAux b l).Chain' SSG.noDD := by
  induction l generalizing b with
  | nil => cases b <;> exact List.chain'_nil
  | cons a t ih =>
    cases hk : SSG.keepChar a with
    | true =>
      rw [collapseAux_cons_keep b a t hk, List.chain'_cons']
      refine ⟨fun y hy => noDD_of_left a y (keep_not_dash a hk), ih false⟩
    | false =>
      cases b with
      | true =>
        rw [collapseAux_cons_junk_true a t hk]
        exact ih true
      | false =>
        rw [collapseAux_cons_junk_false a t hk, List.chain'_cons']
        refine ⟨fun y hy => ?_, ih true⟩
        exact noDD_of_right '-' y (keep_not_dash y (collapseAux_true_head t y hy))

/-- Stripping both ends yields a sublist. -/
theorem stripEnds_sublist (p : Char → Bool) (l : List Char) :
    List.Sublist (SSG.stripEnds p l) l := by
  unfold SSG.stripEnds
  have h1 : List.Sublist ((l.dropWhile p).reverse.dropWhile p) (l.dropWhile p).reverse :=
    (List.dropWhile_suffix p).sublist
  have h2 := h1.reverse
  rw [List.reverse_reverse] at h2
  exact h2.trans (List.dropWhile_suffix p).sublist

/-- Stripping both ends preserves the no-double-hyphen invariant. -/
theorem stripEnds_chain (p : Char → Bool) (l : List Char)
    (h : l.Chain' SSG.noDD) : (SSG.stripEnds p l).Chain' SSG.noDD := by
  have hsymm : ∀ a b : Char, SSG.noDD a b → flip SSG.noDD a b :=
    fun a b hab hand => hab ⟨hand.2, hand.1⟩
  have h1 : (l.dropWhile p).Chain' SSG.noDD := by
    obtain ⟨t, ht⟩ := List.dropWhile_suffix p (l := l)
    rw [← ht] at h
    exact h.right_of_append
  have h2 : ((l.dropWhile p).reverse).Chain' SSG.noDD := by
    rw [List.chain'_reverse]
    exact h1.imp hsymm
  have h3 : ((l.dropWhile p).reverse.dropWhile p).Chain' SSG.noDD := by
    obtain ⟨t, ht⟩ := List.dropWhile_suffix p (l := (l.dropWhile p).reverse)
    rw [← ht] at h2
    exact h2.right_of_append
  unfold SSG.stripEnds
  rw [List.chain'_reverse]
  exact h3.imp hsymm

/-- The head surviving `dropWhile p` fails `p`. -/
theorem head?_dropWhile_false (p : Char → Bool) (l : List Char) (c : Char)
    (h : (l.dropWhile p).head? = some c) : p c = false := by
  induction l with
  | nil => cases h
  | cons a t ih =>
    cases hp : p a with
    | true =>
      rw [List.dropWhile_cons_of_pos hp] at h
      exact ih h
    | false =>
      rw [List.dropWhile_cons_of_neg (by simp [hp]), List.head?_cons] at h
      injection h with h2
      subst h2
      exact hp

/-- The head of a both-ends strip fails the predicate. -/
theorem stripEnds_head (p : Char → Bool) (l : List Char) (c : Char)
    (h : (SSG.stripEnds p l).head? = some c) : p c = false := by
  unfold SSG.stripEnds at h
  obtain ⟨t, ht⟩ := List.dropWhile_suffix p (l := (l.dropWhile p).reverse)
  have hm : ((l.dropWhile p).reverse.dropWhile p).reverse ++ t.reverse = l.dropWhile p := by
    rw [← List.reverse_append, ht, List.reverse_reverse]
  cases hX : ((l.dropWhile p).reverse.dropWhile p).reverse with
  | nil => rw [hX] at h; cases h
  | cons x xs =>
    rw [hX, List.head?_cons] at h
    injection h with h2
    rw [hX] at hm
    have hhead : (l.dropWhile p).head? = some x := by
      rw [← hm]
      rfl
    subst h2
    exact head?_dropWhile_false p l x hhead

/-- The last character of a both-ends strip fails the predicate. -/
theorem stripEnds_getLast (p : Char → Bool) (l : List Char) (c : Char)
    (h : (SSG.stripEnds p l).getLast? = some c) : p c = false := by
  unfold SSG.stripEnds at h
  rw [List.getLast?_reverse] at h
  exact head?_dropWhile_false p (l.dropWhile p).reverse c h

/-- `dropWhile` is the identity when the head already fails the predicate. -/
theorem dropWhile_eq_self_of_head (p : Char → Bool) (l : List Char)
    (h : ∀ c, l.head? = some c → p c = false) : l.dropWhile p = l := by
  cases l with
  | nil => rfl
  | cons a t =>
    have ha := h a rfl
    exact List.dropWhile_cons_of_neg (by simp [ha])

/-- Stripping both ends is the identity when both ends fail the predicate. -/
theorem stripEnds_eq_self (p : Char → Bool) (l : List Char)
    (hh : ∀ c, l.head? = some c → p c = false)
    (hl : ∀ c, l.getLast? = some c → p c = false) :
    SSG.stripEnds p l = l := by
  unfold SSG.stripEnds
  rw [dropWhile_eq_self_of_head p l hh]
  rw [dropWhile_eq_self_of_head p l.reverse
    (fun c hc => hl c (by rwa [List.head?_reverse] at hc))]
  rw [List.reverse_reverse]

/-- Mapping a pointwise-identity function is the identity. -/
theorem map_lowerChar_id (l : List Char)
    (h : ∀ c ∈ l, SSG.lowerChar c = c) : l.map SSG.lowerChar = l := by
  induction l with
  | nil => rfl
  | cons a t ih =>
    rw [List.map_cons, h a (List.mem_cons_self a t),
      ih (fun c hc => h c (List.mem_cons_of_mem a hc))]

/-- A list of kept characters and isolated hyphens is a fixed point of the
collapse pass. -/
theorem collapseAux_fix (l : List Char)
    (hmem : ∀ c ∈ l, SSG.keepChar c = true ∨ SSG.isDash c = true)
    (hchain : l.Chain' SSG.noDD) :
    SSG.collapseAux false l = l := by
  induction l with
  | nil => rfl
  | cons a t ih =>
    have hmt : ∀ c ∈ t, SSG.keepChar c = true ∨ SSG.isDash c = true :=
      fun c hc => hmem c (List.mem_cons_of_mem a hc)
    have hct : t.Chain' SSG.noDD := hchain.tail
    have ht := ih hmt hct
    rcases hmem a (List.mem_cons_self a t) with hk | hd
    · rw [collapseAux_cons_keep false a t hk, ht]
    · have ha : a = '-' := dash_eq a hd
      cases t with
      | nil =>
        subst ha
        rfl
      | cons k t2 =>
        have hkk : SSG.keepChar k = true := by
          have hnodd : SSG.noDD a k := (List.chain'_cons.mp hchain).1
          rcases hmt k (List.mem_cons_self k t2) with h | h
          · exact h
          · exact absurd ⟨hd, h⟩ hnodd
        rw [collapseAux_cons_keep false k t2 hkk] at ht
        have ht2 : SSG.collapseAux false t2 = t2 := by
          injection ht
        subst ha
        rw [collapseAux_cons_junk_false '-' (k :: t2) (by decide),
          collapseAux_cons_keep true k t2 hkk, ht2]

/-- A normalised slug (kept characters and isolated hyphens, hyphen-free
ends, nonempty) is a fixed point of `slugList`. -/
theorem slugList_fix (o : List Char)
    (hmem : ∀ c ∈ o, SSG.keepChar c = true ∨ SSG.isDash c = true)
    (hchain : o.Chain' SSG.noDD)
    (hh : ∀ c, o.head? = some c → SSG.isDash c = false)
    (hl : ∀ c, o.getLast? = some c → SSG.isDash c = false)
    (hne : o ≠ []) :
    SSG.slugList o = o := by
  have hnws : ∀ c ∈ o, SSG.pySpace c = false := fun c hc =>
    (hmem c hc).elim (keep_not_space c) (dash_not_space c)
  have hmemhead : ∀ c, o.head? = some c → c ∈ o := by
    intro c hc
    cases o with
    | nil => cases hc
    | cons a t =>
      rw [List.head?_cons] at hc
      injection hc with h2
      exact h2 ▸ List.mem_cons_self a t
  have hmemlast : ∀ c, o.getLast? = some c → c ∈ o := by
    intro c hc
    have hc2 : o.reverse.head? = some c := by rw [List.head?_reverse]; exact hc
    cases hrev : o.reverse with
    | nil =>
      rw [hrev] at hc2
      cases hc2
    | cons a t =>
      rw [hrev, List.head?_cons] at hc2
      injection hc2 with h2
      have : c ∈ o.reverse := by rw [hrev]; exact h2 ▸ List.mem_cons_self a t
      exact List.mem_reverse.mp this
  have h1 : SSG.stripEnds SSG.pySpace o = o :=
    stripEnds_eq_self _ _ (fun c hc => hnws c (hmemhead c hc))
      (fun c hc => hnws c (hmemlast c hc))
  have h2 : o.map SSG.lowerChar = o := map_lowerChar_id o (fun c hc =>
    (hmem c hc).elim (keep_lowerChar c) (dash_lowerChar c))
  have h3 : SSG.collapseAux false o = o := collapseAux_fix o hmem hchain
  have h4 : SSG.stripEnds SSG.isDash o = o := stripEnds_eq_self _ _ hh hl
  simp only [SSG.slugList, SSG.collapseRuns]
  rw [h1, h2, h3, h4, if_neg (by simp [List.isEmpty_iff, hne])]

/-- Every `slugList` output is a normalised slug: kept characters and
isolated hyphens only, hyphen-free ends, nonempty. -/
theorem slugList_props (l : List Char) :
    (∀ c ∈ SSG.slugList l, SSG.keepChar c = true ∨ SSG.isDash c = true) ∧
    (SSG.slugList l).Chain' SSG.noDD ∧
    (∀ c, (SSG.slugList l).head? = some c → SSG.isDash c = false) ∧
    (∀ c, (SSG.slugList l).getLast? = some c → SSG.isDash c = false) ∧
    SSG.slugList l ≠ [] := by
  simp only [SSG.slugList, SSG.collapseRuns]
  by_cases he : (SSG.stripEnds SSG.isDash (SSG.collapseAux false
      ((SSG.stripEnds SSG.pySpace l).map SSG.lowerChar))).isEmpty = true
  · rw [if_pos he]
    refine ⟨by decide, ?_, ?_, ?_, by simp⟩
    · simp only [List.chain'_cons, List.chain'_singleton, and_true]
      refine ⟨?_, ?_, ?_, ?_⟩ <;> (intro hand; revert hand; decide)
    · intro c hc
      rw [List.head?_cons] at hc
      injection hc with h2
      subst h2
      decide
    · intro c hc
      have : (['s', 't', 'o', 'c', 'k'] : List Char).getLast? = some 'k' := rfl
      rw [this] at hc
      injection hc with h2
      subst h2
      decide
  · rw [if_neg he]
    refine ⟨?_, ?_, ?_, ?_, by simpa [List.isEmpty_iff] using he⟩
    · intro c hc
      exact collapseAux_mem _ false c ((stripEnds_sublist _ _).subset hc)
    · exact stripEnds_chain _ _ (collapseAux_chain _ false)
    · exact fun c hc => stripEnds_head _ _ c hc
    · exact fun c hc => stripEnds_getLast _ _ c hc

/-- Claim C10: the slug generator is idempotent — `slug (slug s) = slug s`
for every string. -/
theorem slug_idempotent (s : String) : SSG.slug (SSG.slug s) = SSG.slug s := by
  show String.mk (SSG.slugList (SSG.slugList s.data)) = String.mk (SSG.slugList s.data)
  obtain ⟨hmem, hchain, hh, hl, hne⟩ := slugList_props s.data
  rw [slugList_fix _ hmem hchain hh hl hne]
